import Mathlib

/-!
# Verification of the lycheepy.cli front-end widgets

A shallow embedding of the two behavioural source files of the repository:

* `src/app/pages/chains/components/detail/data.inspector.ts` — the GoJS
  property-inspector widget (class `Inspector`);
* `src/app/services/csw.service.ts` — the CSW catalogue query client.

JavaScript runtime values are embedded as the inductive `JSVal`; JS numbers
are embedded as exact integers (`Int`), which covers every value the
inspector's own numeric text representations produce.  External collaborators
(the GoJS value classes `Point`/`Size`/`Rect`/`Spot`/`Margin` and their
`stringify`/`parse` helpers, the HTML canvas colour normalisation, and
`xml2js.parseString`) are modelled from their documented behaviour, since
they are vendored third-party dependencies and not part of this repository.
-/

namespace LycheeCli

/-- JavaScript runtime values, as the inspector manipulates them.
Numbers are embedded as exact integers plus an explicit `nan`;
`point`/`size`/`rect`/`spot`/`margin` model the GoJS value classes;
`func` models function-valued properties (identified by a tag). -/
inductive JSVal where
  | undef
  | null
  | bool (b : Bool)
  | num (n : Int)
  | nan
  | str (s : String)
  | point (x y : Int)
  | size (w h : Int)
  | rect (x y w h : Int)
  | spot (x y ox oy : Int)
  | margin (t r b l : Int)
  | arr (xs : List JSVal)
  | func (fid : Nat)

/-- A JS data record (`Part.data` or a plain model-data object):
an association list in property-insertion order, as `for … in` iterates. -/
abbrev JSRecord := List (String × JSVal)

/-- `data[k]`: first binding of `k`, `undefined` when absent. -/
def getProp (r : JSRecord) (k : String) : JSVal :=
  match List.lookup k r with
  | some v => v
  | none => JSVal.undef

/-- `Model.setDataProperty(data, k, v)`: overwrite the binding of `k`
in place, or append it when absent (models JS property assignment). -/
def setRec (r : JSRecord) (k : String) (v : JSVal) : JSRecord :=
  match r with
  | [] => [(k, v)]
  | (k', v') :: t => if k' = k then (k, v) :: t else (k', v') :: setRec t k v

/-- The own enumerable keys of a record, in `for … in` order. -/
def ownKeys (r : JSRecord) : List String := r.map Prod.fst

/-- `typeof x === 'function'`. -/
def isFuncVal : JSVal → Bool
  | .func _ => true
  | _ => false

/-- JS truthiness test (negated): the falsy values are `undefined`, `null`,
`false`, `0`, `NaN` and the empty string. -/
def jsFalsy : JSVal → Bool
  | .undef => true
  | .null => true
  | .bool b => !b
  | .num n => n = 0
  | .nan => true
  | .str s => s = ""
  | _ => false

/-! ## Decimal text for JS numbers

`x.toString()` and `parseFloat(x)` on the integer fragment of JS numbers.
Defined with explicit fuel so that every definition reduces by `rfl`. -/

/-- The decimal digit character of `d` (for `d < 10`). -/
def decDigitChar (d : Nat) : Char := Char.ofNat (48 + d)

/-- Value of a decimal digit character. -/
def charDigitVal (c : Char) : Nat := c.toNat - 48

/-- Fuelled decimal printer for naturals (most significant digit first). -/
def natToCharsAux : Nat → Nat → List Char
  | 0, _ => []
  | fuel + 1, n =>
    if n < 10 then [decDigitChar n]
    else natToCharsAux fuel (n / 10) ++ [decDigitChar (n % 10)]

/-- Decimal digits of a natural number. -/
def natToChars (n : Nat) : List Char := natToCharsAux (n + 1) n

/-- `Number.prototype.toString` on the integer fragment. -/
def intChars : Int → List Char
  | .ofNat n => natToChars n
  | .negSucc n => '-' :: natToChars (n + 1)

/-- String form of a JS number. -/
def numToString (n : Int) : String := ⟨intChars n⟩

/-- Accumulate decimal digit characters into a natural number. -/
def digitsToNat (cs : List Char) : Nat :=
  cs.foldl (fun acc c => 10 * acc + charDigitVal c) 0

/-- `parseFloat` on the integer fragment: skip leading spaces, optional
sign, then a non-empty run of decimal digits; `none` models `NaN`. -/
def jsParseFloatChars (cs0 : List Char) : Option Int :=
  let cs := cs0.dropWhile (fun c => c = ' ')
  match cs with
  | [] => none
  | c :: t =>
    if c = '-' then
      let ds := t.takeWhile Char.isDigit
      if ds = [] then none else some (-(digitsToNat ds : Int))
    else if c = '+' then
      let ds := t.takeWhile Char.isDigit
      if ds = [] then none else some (digitsToNat ds : Int)
    else
      let ds := cs.takeWhile Char.isDigit
      if ds = [] then none else some (digitsToNat ds : Int)

/-- `parseFloat` on strings. -/
def jsParseFloat (s : String) : Option Int := jsParseFloatChars s.data

/-! ## `Inspector.convertToString` and the type-specific parsers -/

/-- Join char-level tokens with single spaces (the `str += ' '` loop of
`convertToString`, and the GoJS `stringify` text layout). -/
def joinSpaceChars : List (List Char) → List Char
  | [] => []
  | [x] => x
  | x :: y :: xs => x ++ ' ' :: joinSpaceChars (y :: xs)

/-- Space-joined decimal form of a list of numbers (the GoJS
`Point/Size/Rect/Spot/Margin.stringify` text, modelled from the
vendored library's documented output). -/
def numListString (ns : List Int) : String := ⟨joinSpaceChars (ns.map intChars)⟩

mutual

/-- `Inspector.convertToString`: the text shown for a property value.
GoJS value classes render as their space-separated `stringify` form,
arrays as space-joined element strings, and everything else as JS
`toString`. -/
def convertToString : JSVal → String
  | .undef => "undefined"
  | .null => "null"
  | .bool b => if b then "true" else "false"
  | .num n => numToString n
  | .nan => "NaN"
  | .str s => s
  | .point x y => numListString [x, y]
  | .size w h => numListString [w, h]
  | .rect x y w h => numListString [x, y, w, h]
  | .spot x y ox oy => numListString [x, y, ox, oy]
  | .margin t r b l => numListString [t, r, b, l]
  | .arr xs => ⟨joinSpaceChars ((convertToStringList xs).map String.data)⟩
  | .func _ => "function"

/-- Element-wise `convertToString` over an array value. -/
def convertToStringList : List JSVal → List String
  | [] => []
  | v :: vs => convertToString v :: convertToStringList vs

end

/-- `value.split(' ')` with empty fragments skipped, at char level
(the token stream all the type-specific parsers consume). -/
def splitTokens (s : String) : List (List Char) :=
  (s.data.splitOn ' ').filter (fun t => t ≠ [])

/-- The `i`-th numeric token of a parsed GoJS value text, `0` when the
token is absent (models the vendored parse helpers on well-formed text). -/
def tokNum (ts : List (List Char)) (i : Nat) : Int :=
  match ts.get? i with
  | some t => (jsParseFloatChars t).getD 0
  | none => 0

/-- `go.Point.parse` (modelled from the vendored library): two
space-separated numbers. -/
def goPointParse (s : String) : JSVal :=
  let ts := splitTokens s
  .point (tokNum ts 0) (tokNum ts 1)

/-- `go.Size.parse` (modelled from the vendored library). -/
def goSizeParse (s : String) : JSVal :=
  let ts := splitTokens s
  .size (tokNum ts 0) (tokNum ts 1)

/-- `go.Rect.parse` (modelled from the vendored library). -/
def goRectParse (s : String) : JSVal :=
  let ts := splitTokens s
  .rect (tokNum ts 0) (tokNum ts 1) (tokNum ts 2) (tokNum ts 3)

/-- `go.Spot.parse` (modelled from the vendored library), numeric form. -/
def goSpotParse (s : String) : JSVal :=
  let ts := splitTokens s
  .spot (tokNum ts 0) (tokNum ts 1) (tokNum ts 2) (tokNum ts 3)

/-- `go.Margin.parse` (modelled from the vendored library): one, two or
four numbers. -/
def goMarginParse (s : String) : JSVal :=
  let ts := splitTokens s
  match ts with
  | [a] => .margin (tokNum [a] 0) (tokNum [a] 0) (tokNum [a] 0) (tokNum [a] 0)
  | [a, b] => .margin (tokNum [a, b] 0) (tokNum [a, b] 1) (tokNum [a, b] 0) (tokNum [a, b] 1)
  | _ => .margin (tokNum ts 0) (tokNum ts 1) (tokNum ts 2) (tokNum ts 3)

/-- `Inspector.convertToArrayOfNumber`: `'null'` maps to `null`, otherwise
split on spaces, skip empty fragments, `parseFloat` each token. -/
def convertToArrayOfNumber (s : String) : JSVal :=
  if s = "null" then .null
  else .arr ((splitTokens s).map (fun t =>
    match jsParseFloatChars t with
    | some n => JSVal.num n
    | none => JSVal.nan))

/-- The boolean conversion of the commit path:
`!(value === false || value === 'false' || value === '0')`. -/
def parseBooleanJS : JSVal → Bool
  | .bool b => b
  | .str s => !(s = "false" || s = "0")
  | _ => true

/-- Type inference from the previous stored value
(`typeof oldval` / `instanceof` chain of `updateAllProperties`). -/
def inferType : JSVal → String
  | .bool _ => "boolean"
  | .num _ => "number"
  | .nan => "number"
  | .point _ _ => "point"
  | .size _ _ => "size"
  | .rect _ _ _ _ => "rect"
  | .spot _ _ _ _ => "spot"
  | .margin _ _ _ _ => "margin"
  | _ => ""

/-- The `switch (type)` of `updateAllProperties`: convert the input's
current text to the typed value; types without a case (including
`'string'` and `'color'`) keep the raw string. -/
def commitConvert (type : String) (s : String) : JSVal :=
  match type with
  | "boolean" => .bool (parseBooleanJS (.str s))
  | "number" =>
    match jsParseFloat s with
    | some n => .num n
    | none => .nan
  | "arrayofnumber" => convertToArrayOfNumber s
  | "point" => goPointParse s
  | "size" => goSizeParse s
  | "rect" => goRectParse s
  | "spot" => goSpotParse s
  | "margin" => goMarginParse s
  | _ => .str s

/-! ## Colour model

`Inspector.convertToColor` lets a 2D canvas normalise any CSS colour to
`#rrggbb` hex (lowercase); an invalid colour leaves the canvas default
`#000000`.  Colours are modelled by their byte components; the textual
forms handled are six-digit hex strings. -/

/-- A CSS colour's byte components. -/
structure RGB where
  r : Fin 256
  g : Fin 256
  b : Fin 256

/-- Lowercase hex digit for `d < 16`. -/
def hexDigitChar (d : Nat) : Char :=
  if d < 10 then decDigitChar d else Char.ofNat (87 + d)

/-- Value of a hex digit character (both cases), `none` otherwise. -/
def hexVal (c : Char) : Option Nat :=
  if 48 ≤ c.toNat ∧ c.toNat ≤ 57 then some (c.toNat - 48)
  else if 97 ≤ c.toNat ∧ c.toNat ≤ 102 then some (c.toNat - 87)
  else if 65 ≤ c.toNat ∧ c.toNat ≤ 70 then some (c.toNat - 55)
  else none

/-- Two lowercase hex digits of a byte. -/
def byteHexChars (n : Nat) : List Char := [hexDigitChar (n / 16), hexDigitChar (n % 16)]

/-- Canonical `#rrggbb` (lowercase) text of a colour, as the canvas
emits it. -/
def hexEncode (c : RGB) : String :=
  ⟨'#' :: (byteHexChars c.r.val ++ byteHexChars c.g.val ++ byteHexChars c.b.val)⟩

/-- Combine two hex digit characters into a byte. -/
def hexByte (a b : Char) : Option (Fin 256) :=
  match hexVal a, hexVal b with
  | some x, some y => if h : 16 * x + y < 256 then some ⟨16 * x + y, h⟩ else none
  | _, _ => none

/-- Read a six-digit hex CSS colour. -/
def parseCssColor (s : String) : Option RGB :=
  match s.data with
  | '#' :: [h1, h2, h3, h4, h5, h6] =>
    match hexByte h1 h2, hexByte h3 h4, hexByte h5 h6 with
    | some r, some g, some b => some ⟨r, g, b⟩
    | _, _, _ => none
  | _ => none

mutual

/-- JS string coercion (`String(x)`), as assigning `input.value` performs:
arrays join with commas, GoJS values use their `toString` form. -/
def jsCoerceString : JSVal → String
  | .undef => "undefined"
  | .null => "null"
  | .bool b => if b then "true" else "false"
  | .num n => numToString n
  | .nan => "NaN"
  | .str s => s
  | .point x y => "Point(" ++ numToString x ++ "," ++ numToString y ++ ")"
  | .size w h => "Size(" ++ numToString w ++ "," ++ numToString h ++ ")"
  | .rect x y w h =>
    "Rect(" ++ numToString x ++ "," ++ numToString y ++ ","
      ++ numToString w ++ "," ++ numToString h ++ ")"
  | .spot x y ox oy =>
    "Spot(" ++ numToString x ++ "," ++ numToString y ++ ","
      ++ numToString ox ++ "," ++ numToString oy ++ ")"
  | .margin t r b l =>
    "Margin(" ++ numToString t ++ "," ++ numToString r ++ ","
      ++ numToString b ++ "," ++ numToString l ++ ")"
  | .arr xs => String.intercalate "," (jsCoerceStringList xs)
  | .func _ => "function"

def jsCoerceStringList : List JSVal → List String
  | [] => []
  | v :: vs => jsCoerceString v :: jsCoerceStringList vs

end

/-- `Inspector.convertToColor`: canvas normalisation of a colour value;
invalid colours yield the canvas default `#000000`. -/
def convertToColor (v : JSVal) : String :=
  match parseCssColor (jsCoerceString v) with
  | some c => hexEncode c
  | none => "#000000"

/-! ## The Inspector data model

`Inspector` of `data.inspector.ts`.  The inspected object is either a GoJS
`Part` (whose mutable key/value record is `Part.data`, possibly null) or a
plain data object; `===` identity is modelled by a reference tag `oid`. -/

/-- `undefined` test. -/
def isUndef : JSVal → Bool
  | .undef => true
  | _ => false

/-- The inspected object: a GoJS `Part` carrying a data record, or a plain
data object (such as `Model.modelData`).  `oid` is the JS reference
identity. -/
inductive InspObj where
  | part (oid : Nat) (data : Option JSRecord)
  | plain (oid : Nat) (fields : JSRecord)

/-- Reference identity of an object. -/
def objId : InspObj → Nat
  | .part oid _ => oid
  | .plain oid _ => oid

/-- `(inspectedObject instanceof go.Part) ? inspectedObject.data :
inspectedObject`, with JS truthiness: `none` when the resulting data is
null/undefined. -/
def objData? : InspObj → Option JSRecord
  | .part _ d => d
  | .plain _ f => some f

/-- Replace the data record held by the object (the effect of mutating the
record `setDataProperty` received). -/
def setObjData : InspObj → JSRecord → InspObj
  | .part oid _, r => .part oid (some r)
  | .plain oid _, r => .plain oid r

/-- The `show` option of a property descriptor: absent, a boolean flag, or
a predicate of the inspected object and property name. -/
inductive ShowOpt where
  | missing
  | flag (b : Bool)
  | pred (f : InspObj → String → Bool)

/-- The `readOnly` option of a property descriptor. -/
inductive ReadOnlyOpt where
  | missing
  | flag (b : Bool)
  | pred (f : InspObj → String → Bool)

/-- A declared property descriptor (`options.properties[name]`). -/
structure PropertyDesc where
  showOpt : ShowOpt := .missing
  readOnly : ReadOnlyOpt := .missing
  type : Option String := none
  defaultValue : Option JSVal := none

/-- `Inspector.canShowProperty`: hidden when `show === false`; a `show`
predicate decides; otherwise shown. -/
def canShowProperty (propertyName : String) (propertyDesc : PropertyDesc)
    (inspectedObject : InspObj) : Bool :=
  match propertyDesc.showOpt with
  | .flag false => false
  | .pred f => f inspectedObject propertyName
  | _ => true

/-- `Inspector.canEditProperty`: function-valued properties are not
editable; then `readOnly === true` or a true `readOnly` predicate forbids
editing.  (Only reached with a non-null data record, as in the source.) -/
def canEditProperty (propertyName : String) (propertyDesc : Option PropertyDesc)
    (inspectedObject : InspObj) : Bool :=
  let data := (objData? inspectedObject).getD []
  if isFuncVal (getProp data propertyName) then false
  else
    match propertyDesc with
    | none => true
    | some d =>
      match d.readOnly with
      | .flag true => false
      | .pred f => !f inspectedObject propertyName
      | _ => true

/-- The state of a generated `<input>` element that matters to the
inspector: its current text, disabled flag, resolved `type` IDL attribute,
registered event listeners (each listener runs `updateAllProperties`), and
tab index. -/
structure InputElem where
  value : String := ""
  disabled : Bool := false
  typeAttr : String := "text"
  listeners : List String := []
  tabIndex : Nat := 0

/-- The input `type` values the browser recognises; `setAttribute('type', t)`
with any other string leaves the element a text input. -/
def htmlInputTypes : List String :=
  ["text", "color", "checkbox", "date", "datetime-local", "email", "file", "hidden",
   "image", "month", "number", "password", "radio", "range", "reset", "search",
   "submit", "tel", "time", "url", "week", "button"]

/-- Resolved `input.type` after `setAttribute('type', t)`. -/
def applyTypeAttr (t : String) : String :=
  if htmlInputTypes.contains t then t else "text"

/-- `Inspector.buildPropertyRow`: create the input element of one row:
set its text via `convertToString`, disable it when not editable, give it
the declared type when that is not one of the nine plain-text type tags,
wire `input`/`change` listeners and a colour value for colour inputs,
force-disable when the model is read-only, and wire `blur` for everything
that is not a colour input. -/
def buildPropertyRow (decl : List (String × PropertyDesc)) (modelReadOnly : Bool)
    (obj : InspObj) (tab : Nat) (propertyName : String) (propertyValue : JSVal) : InputElem :=
  let decProp := List.lookup propertyName decl
  let input0 : InputElem :=
    { value := convertToString propertyValue,
      disabled := !canEditProperty propertyName decProp obj,
      typeAttr := "text", listeners := [], tabIndex := tab }
  let input1 :=
    match decProp with
    | none => input0
    | some d =>
      let tStr := match d.type with | some s => s | none => "undefined"
      let i1 :=
        if tStr ≠ "string" ∧ tStr ≠ "number" ∧ tStr ≠ "boolean" ∧
            tStr ≠ "arrayofnumber" ∧ tStr ≠ "point" ∧ tStr ≠ "size" ∧
            tStr ≠ "rect" ∧ tStr ≠ "spot" ∧ tStr ≠ "margin" then
          { input0 with typeAttr := applyTypeAttr tStr }
        else input0
      if d.type = some "color" ∧ i1.typeAttr = "color" then
        { i1 with listeners := ["input", "change"], value := convertToColor propertyValue }
      else i1
  let input2 := if modelReadOnly then { input1 with disabled := true } else input1
  if input2.typeAttr ≠ "color" then { input2 with listeners := input2.listeners ++ ["blur"] }
  else input2

/-- First loop of `inspectObject`: one row per declared property passing
`canShowProperty`, with the declared default overridden by the data value
when present, and falsy row values replaced by the empty string
(`defaultValue || ''`). -/
def buildLoop1 (decl : List (String × PropertyDesc)) (ro : Bool) (obj : InspObj)
    (data : JSRecord) :
    List (String × PropertyDesc) → List (String × InputElem) → List (String × InputElem)
  | [], acc => acc
  | (k, d) :: rest, acc =>
    if canShowProperty k d obj then
      let dv0 : JSVal := match d.defaultValue with | some v => v | none => .str ""
      let dv1 := if isUndef (getProp data k) then dv0 else getProp data k
      let rowVal := if jsFalsy dv1 then JSVal.str "" else dv1
      buildLoop1 decl ro obj data rest (acc ++ [(k, buildPropertyRow decl ro obj acc.length k rowVal)])
    else buildLoop1 decl ro obj data rest acc

/-- `declaredProperties[k] && !canShowProperty(k, declaredProperties[k], obj)`:
the key is declared and its visibility check fails. -/
def declaredHidden (decl : List (String × PropertyDesc)) (obj : InspObj) (k : String) : Bool :=
  match List.lookup k decl with
  | some d => !canShowProperty k d obj
  | none => false

/-- Second loop of `inspectObject` (when `includesOwnProperties`): one row
per own enumerable key, skipping the GoJS `__gohashid` bookkeeping key,
keys that already have a row, and declared keys failing `canShowProperty`. -/
def buildLoop2 (decl : List (String × PropertyDesc)) (ro : Bool) (obj : InspObj)
    (data : JSRecord) :
    List String → List (String × InputElem) → List (String × InputElem)
  | [], acc => acc
  | k :: rest, acc =>
    if k = "__gohashid" then buildLoop2 decl ro obj data rest acc
    else if (acc.map Prod.fst).contains k then buildLoop2 decl ro obj data rest acc
    else if declaredHidden decl obj k then buildLoop2 decl ro obj data rest acc
    else buildLoop2 decl ro obj data rest
      (acc ++ [(k, buildPropertyRow decl ro obj acc.length k (getProp data k))])

/-- The full row rebuild of `inspectObject` over a non-null data record. -/
def buildRows (decl : List (String × PropertyDesc)) (includesOwn : Bool) (ro : Bool)
    (obj : InspObj) (data : JSRecord) : List (String × InputElem) :=
  let acc1 := buildLoop1 decl ro obj data decl []
  if includesOwn then buildLoop2 decl ro obj data (ownKeys data) acc1 else acc1

/-- The whole inspector state.  `rows` is the `_inspectedProperties` map in
insertion order; `domRows` is the list of rows actually present in the
inspector's `<div>` (they coincide except when a rebuild aborted on a null
data record, which clears the div but leaves `_inspectedProperties` stale). -/
structure InspectorState where
  includesOwnProperties : Bool := true
  declaredProperties : List (String × PropertyDesc) := []
  inspectsSelection : Bool := true
  hasPropertyModified : Bool := false
  modelIsReadOnly : Bool := false
  inspectedObject : Option InspObj := none
  rows : List (String × InputElem) := []
  domRows : List (String × InputElem) := []
  tabIndex : Nat := 0

/-- Refresh one input from the (possibly missing) data record, as
`updateAllHTML` does: colour inputs show `convertToColor` (or `#000000`
when cleared), others `convertToString` (or the empty string). -/
def refreshInput (dataOpt : Option JSRecord) (name : String) (i : InputElem) : InputElem :=
  match dataOpt with
  | none => { i with value := if i.typeAttr = "color" then "#000000" else "" }
  | some data =>
    { i with value :=
        if i.typeAttr = "color" then convertToColor (getProp data name)
        else convertToString (getProp data name) }

/-- `Inspector.updateAllHTML`: refresh every input's displayed value in
place. -/
def updateAllHTML (st : InspectorState) : InspectorState :=
  let dataOpt := st.inspectedObject.bind objData?
  { st with
    rows := st.rows.map (fun p => (p.1, refreshInput dataOpt p.1 p.2)),
    domRows := st.domRows.map (fun p => (p.1, refreshInput dataOpt p.1 p.2)) }

/-- The object `inspectObject` resolves: the explicit argument when one was
given, else the diagram selection when selection-tracking is on, else the
currently inspected object. -/
def resolveTarget (st : InspectorState) (selection : Option InspObj)
    (arg : Option (Option InspObj)) : Option InspObj :=
  match arg with
  | some v => v
  | none => if st.inspectsSelection then selection else st.inspectedObject

/-- The guard `inspectedObject === null || this.inspectedObject ===
inspectedObject` of `inspectObject`. -/
def sameOrNull (st : InspectorState) (r : Option InspObj) : Bool :=
  match r with
  | none => true
  | some o =>
    match st.inspectedObject with
    | none => false
    | some cur => objId o = objId cur

/-- `Inspector.inspectObject`: refresh in place when the resolved object is
null or identical to the current one; otherwise clear the div and rebuild
the rows from the new object's data record, returning with an empty div
(and a stale `_inspectedProperties`) when that record is null. -/
def inspectObject (st : InspectorState) (selection : Option InspObj)
    (arg : Option (Option InspObj)) : InspectorState :=
  let r := resolveTarget st selection arg
  if sameOrNull st r then updateAllHTML { st with inspectedObject := r }
  else
    match r with
    | none => st
    | some o =>
      match objData? o with
      | none => { st with inspectedObject := r, domRows := [] }
      | some data =>
        let built := buildRows st.declaredProperties st.includesOwnProperties
          st.modelIsReadOnly o data
        { st with
          inspectedObject := r
          domRows := built
          rows := built
          tabIndex := built.length }

/-! ## The commit path (`updateAllProperties`) -/

/-- Observable interactions of a commit with the diagram model: the
transaction brackets, the auditable property writes
(`model.setDataProperty`), and the `propertyModified` callback calls. -/
inductive ModelEvent where
  | startTx (label : String)
  | setProp (name : String) (value : JSVal)
  | modified (name : String) (value : JSVal)
  | commitTx (label : String)

/-- The effective conversion type of a row during commit: the declared
`type` when present, otherwise inferred from the stored value. -/
def effCommitType (desc : Option PropertyDesc) (data : JSRecord) (name : String) : String :=
  let t := match desc with
    | some d => (match d.type with | some s => s | none => "")
    | none => ""
  if t = "" then inferType (getProp data name) else t

/-- The `for (const name in inspectedProps)` loop of `updateAllProperties`:
threads the mutated data record, writes back the parsed value into each
editable input, and accumulates the model events. -/
def commitLoop (decl : List (String × PropertyDesc)) (hasPM : Bool) (obj : InspObj) :
    List (String × InputElem) → JSRecord →
    JSRecord × List (String × InputElem) × List ModelEvent
  | [], data => (data, [], [])
  | (name, inp) :: rest, data =>
    let desc := List.lookup name decl
    if canEditProperty name desc (setObjData obj data) then
      let v := commitConvert (effCommitType desc data name) inp.value
      let inp' := { inp with value := jsCoerceString v }
      let data' := setRec data name v
      let res := commitLoop decl hasPM obj rest data'
      (res.1, (name, inp') :: res.2.1,
        (ModelEvent.setProp name v :: (if hasPM then [ModelEvent.modified name v] else []))
          ++ res.2.2)
    else
      let res := commitLoop decl hasPM obj rest data
      (res.1, (name, inp) :: res.2.1, res.2.2)

/-- `Inspector.updateAllProperties`: returns unchanged with no events when
the data record is missing; otherwise brackets the per-row writes in a
single `'set all properties'` transaction. -/
def updateAllProperties (st : InspectorState) : InspectorState × List ModelEvent :=
  match st.inspectedObject with
  | none => (st, [])
  | some obj =>
    match objData? obj with
    | none => (st, [])
    | some data =>
      let res := commitLoop st.declaredProperties st.hasPropertyModified obj st.rows data
      let newObj := setObjData obj res.1
      let st' :=
        { st with
          inspectedObject := some newObj
          rows := res.2.1
          domRows := st.domRows.map (fun p =>
            match List.lookup p.1 res.2.1 with
            | some i => (p.1, i)
            | none => p) }
      (st', ModelEvent.startTx "set all properties" :: res.2.2
        ++ [ModelEvent.commitTx "set all properties"])

/-! ## Properties of the commit loop -/

/-- The batched per-row behaviour the commit transaction performs, stated
row by row: an editable row contributes exactly one auditable write of its
type-converted current value, followed by one `propertyModified` call when
the callback is configured; a read-only row contributes nothing; the data
record threads through the writes. -/
inductive CommitBody (decl : List (String × PropertyDesc)) (hasPM : Bool) (obj : InspObj) :
    List (String × InputElem) → JSRecord → List ModelEvent → Prop where
  | nil (data : JSRecord) : CommitBody decl hasPM obj [] data []
  | editable {name : String} {inp : InputElem} {rest : List (String × InputElem)}
      {data : JSRecord} {log : List ModelEvent} (v : JSVal)
      (he : canEditProperty name (List.lookup name decl) (setObjData obj data) = true)
      (hv : v = commitConvert (effCommitType (List.lookup name decl) data name) inp.value)
      (hrest : CommitBody decl hasPM obj rest (setRec data name v) log) :
      CommitBody decl hasPM obj ((name, inp) :: rest) data
        (ModelEvent.setProp name v ::
          (if hasPM then [ModelEvent.modified name v] else []) ++ log)
  | readonly {name : String} {inp : InputElem} {rest : List (String × InputElem)}
      {data : JSRecord} {log : List ModelEvent}
      (he : canEditProperty name (List.lookup name decl) (setObjData obj data) = false)
      (hrest : CommitBody decl hasPM obj rest data log) :
      CommitBody decl hasPM obj ((name, inp) :: rest) data log

/-- Transaction bracket events. -/
def isStartTxEvent : ModelEvent → Bool
  | .startTx _ => true
  | _ => false

/-- Transaction commit events. -/
def isCommitTxEvent : ModelEvent → Bool
  | .commitTx _ => true
  | _ => false

/-! ## The set of generated row names -/

/-- Names of the declared properties passing the visibility check. -/
def visibleDeclaredNames (decl : List (String × PropertyDesc)) (obj : InspObj) : List String :=
  (decl.filter (fun p => canShowProperty p.1 p.2 obj)).map Prod.fst

/-- The own enumerable keys that the second loop actually keeps, given the
names already present. -/
def ownKeyKept (decl : List (String × PropertyDesc)) (obj : InspObj)
    (accNames : List String) (k : String) : Bool :=
  !(k == "__gohashid") && !accNames.contains k && !declaredHidden decl obj k

/-! ## The CSW catalogue client (`csw.service.ts`)

`CswService.getExecutionResults` builds one fixed `GetRecords` XML request
from a template literal with a single interpolation hole, posts it, and
maps the response text through `xml2js.parseString`.  The template is
transcribed below exactly as the TS template literal evaluates (note that
the source's `escapeChar="\"` escape sequence produces an empty
`escapeChar` attribute at runtime). -/

/-- The request template up to (and excluding) the `dc:title`
`PropertyName` element of the `PropertyIsLike` filter. -/
def cswBeforePropertyName : String :=
  "\n      <csw:GetRecords xmlns:csw=\"http://www.opengis.net/cat/csw/2.0.2\" xmlns:ogc=\"http://www.opengis.net/ogc\" service=\"CSW\" version=\"2.0.2\" resultType=\"results\" startPosition=\"1\" maxRecords=\"10\" outputFormat=\"application/xml\" outputSchema=\"http://www.opengis.net/cat/csw/2.0.2\" xmlns:xsi=\"http://www.w3.org/2001/XMLSchema-instance\" xsi:schemaLocation=\"http://www.opengis.net/cat/csw/2.0.2 http://schemas.opengis.net/csw/2.0.2/CSW-discovery.xsd\" xmlns:gmd=\"http://www.isotc211.org/2005/gmd\" xmlns:apiso=\"http://www.opengis.net/cat/csw/apiso/1.0\">\n        <csw:Query typeNames=\"csw:Record\">\n          <csw:ElementSetName>full</csw:ElementSetName>\n          <csw:Constraint version=\"1.1.0\">\n            <ogc:Filter>\n              <ogc:PropertyIsLike matchCase=\"false\" wildCard=\"%\" singleChar=\"_\" escapeChar=\"\">\n                "

/-- The request template up to (and excluding) the `<ogc:Literal>`
element: everything before the `dc:title` `PropertyName` element, that
element itself, and the indentation of the `Literal` line. -/
def cswRequestOpen : String :=
  cswBeforePropertyName ++ "<ogc:PropertyName>dc:title</ogc:PropertyName>"
    ++ "\n                "

/-- The request template after the `</ogc:Literal>` element. -/
def cswRequestClose : String :=
  "\n              </ogc:PropertyIsLike>\n            </ogc:Filter>\n          </csw:Constraint>\n        </csw:Query>\n      </csw:GetRecords>\n    "

/-- The request body `getExecutionResults` posts: the template with the
execution identifier interpolated verbatim (no escaping, no validation)
between percent wildcards inside the `dc:title` filter literal. -/
def getExecutionResultsBody (executionId : String) : String :=
  cswRequestOpen ++ "<ogc:Literal>" ++ "%" ++ executionId ++ "%" ++ "</ogc:Literal>"
    ++ cswRequestClose

/-- Models the vendored `xml2js` well-formedness gate on the single aspect
the development needs: a body whose first non-whitespace character is not
`<` is rejected (xml2js: "Non-whitespace before first tag"). -/
def xml2jsAccepts (s : String) : Bool :=
  match s.data.dropWhile (fun c => c == ' ' || c == '\n' || c == '\t' || c == '\r') with
  | '<' :: _ => true
  | _ => false

/-- Models `xml2js.parseString(text, cb)` (vendored third-party library):
it never throws; it synchronously invokes the callback with
`(err, result)` — an error and no result on malformed input, no error and
the parsed structure (content irrelevant here) on acceptable input. -/
def xml2jsParseString (s : String) : Option String × Option Unit :=
  if xml2jsAccepts s then (none, some ())
  else (some "Non-whitespace before first character.", none)

/-- The response mapping of `getExecutionResults`: `let res;
xml2js.parseString(text, (err, result) => res = result); return res;` —
the callback stores only `result` and discards `err`, so the function
always completes normally, yielding `none` (JS `undefined`) when parsing
failed. -/
def cswMapResponse (responseText : String) : Option Unit :=
  let cbArgs := xml2jsParseString responseText
  cbArgs.2

/-! ## Spec-side definitions and concrete fixtures -/

/-- The row-name set the specification claims (written from the spec's
words, for comparison with the code's `buildRows`): the union of declared
properties passing visibility checks and, when enabled, the data object's
own enumerable keys except `__gohashid`, deduplicated by name. -/
def specRowNamesUnion (decl : List (String × PropertyDesc)) (includesOwn : Bool)
    (obj : InspObj) (data : JSRecord) : List String :=
  let visDecl := visibleDeclaredNames decl obj
  let own := if includesOwn then (ownKeys data).filter (fun k => !(k == "__gohashid")) else []
  visDecl ++ own.filter (fun k => !visDecl.contains k)

/-- Two input elements that agree on everything except possibly the
displayed text. -/
def sameExceptValue (a b : InputElem) : Prop :=
  b.disabled = a.disabled ∧ b.typeAttr = a.typeAttr ∧ b.listeners = a.listeners ∧
    b.tabIndex = a.tabIndex

/-- Fixture: a boolean-typed editable property and a flag-read-only one. -/
def wDeclC1 : List (String × PropertyDesc) :=
  [("flag", { type := some "boolean" }), ("locked", { readOnly := ReadOnlyOpt.flag true })]

/-- Fixture: the inspected object for the commit witness. -/
def wObjC1 : InspObj := .plain 1 [("flag", JSVal.bool true), ("locked", JSVal.str "s")]

/-- Fixture: inspector state about to commit two rows. -/
def wStC1 : InspectorState :=
  { declaredProperties := wDeclC1, hasPropertyModified := true,
    inspectedObject := some wObjC1,
    rows := [("flag", { value := "false" }), ("locked", { value := "zz" })] }

/-- Fixture: a declared property hidden by `show: false`. -/
def cxShowFalse : PropertyDesc := { showOpt := ShowOpt.flag false }

/-- Fixture: declarations for the row-set counterexample. -/
def cxDeclC2 : List (String × PropertyDesc) := [("a", cxShowFalse)]

/-- Fixture: a data record owning the hidden declared key. -/
def cxDataC2 : JSRecord := [("a", JSVal.num 1)]

/-- Fixture: the object switched to in the row-set counterexample. -/
def cxObjC2 : InspObj := .plain 2 cxDataC2

/-- Fixture: inspector state before the rebuild of the row-set
counterexample. -/
def cxStC2 : InspectorState :=
  { declaredProperties := cxDeclC2, includesOwnProperties := true,
    inspectedObject := some (.plain 1 []) }

/-- Fixture: object identity 5 with a data record, for the refresh case. -/
def wObjC3a : InspObj := .plain 5 [("x", JSVal.num 2)]

/-- Fixture: the same identity 5 carrying updated data. -/
def wObjC3a' : InspObj := .plain 5 [("x", JSVal.num 3)]

/-- Fixture: a different identity 6. -/
def wObjC3b : InspObj := .plain 6 [("y", JSVal.str "v")]

/-- Fixture: inspector state currently showing identity 5. -/
def wStC3 : InspectorState :=
  { inspectedObject := some wObjC3a,
    rows := [("x", { value := "old" })], domRows := [("x", { value := "old" })] }

/-- Fixture: a constantly-true `readOnly` predicate. -/
def wRoPred : InspObj → String → Bool := fun _ _ => true

/-- Fixture: declaration with a `readOnly` predicate. -/
def wDeclC6 : List (String × PropertyDesc) := [("k", { readOnly := ReadOnlyOpt.pred wRoPred })]

/-- Fixture: object for the read-only-predicate witness. -/
def wObjC6 : InspObj := .plain 1 [("k", JSVal.str "v")]

/-- Fixture: state committing the read-only-predicate row. -/
def wStC6 : InspectorState :=
  { declaredProperties := wDeclC6, inspectedObject := some wObjC6,
    rows := [("k", { value := "v2" })] }

/-- Fixture: a globally read-only model with an otherwise editable row:
`updateAllProperties` still writes it. -/
def cxStC7 : InspectorState :=
  { modelIsReadOnly := true,
    inspectedObject := some (.plain 1 [("a", JSVal.str "y")]),
    rows := [("a", { value := "x" })] }

/-- Fixture: a part whose `data` is null, with stale rows. -/
def wStC10 : InspectorState :=
  { inspectedObject := some (.part 3 none), rows := [("x", { value := "old" })] }

/-! ### Round-trip lemmas for the decimal printer -/

theorem decDigitChar_isDigit {d : Nat} (h : d < 10) : (decDigitChar d).isDigit = true := by
  interval_cases d <;> decide

theorem charDigitVal_decDigitChar {d : Nat} (h : d < 10) : charDigitVal (decDigitChar d) = d := by
  interval_cases d <;> decide

theorem decDigitChar_ne_space {d : Nat} (h : d < 10) : decDigitChar d ≠ ' ' := by
  interval_cases d <;> decide

theorem decDigitChar_ne_minus {d : Nat} (h : d < 10) : decDigitChar d ≠ '-' := by
  interval_cases d <;> decide

theorem decDigitChar_ne_plus {d : Nat} (h : d < 10) : decDigitChar d ≠ '+' := by
  interval_cases d <;> decide

theorem natToCharsAux_ne_nil {fuel n : Nat} (h : n < fuel) : natToCharsAux fuel n ≠ [] := by
  cases fuel with
  | zero => omega
  | succ f =>
    simp only [natToCharsAux]
    split
    · simp
    · simp

theorem natToCharsAux_digits {fuel n : Nat} (h : n < fuel) :
    ∀ c ∈ natToCharsAux fuel n, c.isDigit = true := by
  induction fuel generalizing n with
  | zero => omega
  | succ f ih =>
    simp only [natToCharsAux]
    split
    · intro c hc
      simp only [List.mem_singleton] at hc
      subst hc
      exact decDigitChar_isDigit (by omega)
    · intro c hc
      rcases List.mem_append.mp hc with h1 | h2
      · exact ih (by omega) c h1
      · simp only [List.mem_singleton] at h2
        subst h2
        exact decDigitChar_isDigit (Nat.mod_lt _ (by omega))

theorem digitsToNat_append_singleton (a : List Char) (c : Char) :
    digitsToNat (a ++ [c]) = 10 * digitsToNat a + charDigitVal c := by
  simp [digitsToNat, List.foldl_append]

theorem digitsToNat_natToCharsAux {fuel n : Nat} (h : n < fuel) :
    digitsToNat (natToCharsAux fuel n) = n := by
  induction fuel generalizing n with
  | zero => omega
  | succ f ih =>
    simp only [natToCharsAux]
    split
    · next hlt =>
      simp [digitsToNat, charDigitVal_decDigitChar hlt]
    · next hge =>
      rw [digitsToNat_append_singleton, ih (by omega),
        charDigitVal_decDigitChar (Nat.mod_lt _ (by omega))]
      omega

theorem natToChars_ne_nil (n : Nat) : natToChars n ≠ [] :=
  natToCharsAux_ne_nil (Nat.lt_succ_self n)

theorem natToChars_digits (n : Nat) : ∀ c ∈ natToChars n, c.isDigit = true :=
  natToCharsAux_digits (Nat.lt_succ_self n)

theorem digitsToNat_natToChars (n : Nat) : digitsToNat (natToChars n) = n :=
  digitsToNat_natToCharsAux (Nat.lt_succ_self n)

theorem intChars_ne_nil (n : Int) : intChars n ≠ [] := by
  cases n with
  | ofNat m => exact natToChars_ne_nil m
  | negSucc m => simp [intChars]

theorem intChars_no_space (n : Int) : ∀ c ∈ intChars n, c ≠ ' ' := by
  cases n with
  | ofNat m =>
    intro c hc
    have := natToChars_digits m c hc
    intro hsp
    subst hsp
    simp [Char.isDigit] at this
  | negSucc m =>
    intro c hc
    simp only [intChars, List.mem_cons] at hc
    rcases hc with h | h
    · subst h; decide
    · have := natToChars_digits (m + 1) c h
      intro hsp
      subst hsp
      simp [Char.isDigit] at this

/-- Parsing the printed form of an integer gives it back. -/
theorem jsParseFloatChars_intChars (n : Int) : jsParseFloatChars (intChars n) = some n := by
  cases n with
  | ofNat m =>
    obtain ⟨c, t, hct⟩ : ∃ c t, natToChars m = c :: t := by
      cases hm : natToChars m with
      | nil => exact absurd hm (natToChars_ne_nil m)
      | cons c t => exact ⟨c, t, rfl⟩
    have hdig : ∀ x ∈ natToChars m, x.isDigit = true := natToChars_digits m
    have hc : c.isDigit = true := hdig c (by rw [hct]; exact List.mem_cons_self _ _)
    have hcs : ¬(c = ' ') := by intro h; subst h; simp [Char.isDigit] at hc
    have hcm : ¬(c = '-') := by intro h; subst h; simp [Char.isDigit] at hc
    have hcp : ¬(c = '+') := by intro h; subst h; simp [Char.isDigit] at hc
    have htake : (natToChars m).takeWhile Char.isDigit = natToChars m :=
      List.takeWhile_eq_self_iff.mpr hdig
    simp only [intChars, jsParseFloatChars, hct]
    rw [List.dropWhile_cons_of_neg (by simpa using hcs)]
    simp only [if_neg hcm, if_neg hcp]
    rw [← hct, htake]
    rw [if_neg (natToChars_ne_nil m)]
    rw [digitsToNat_natToChars]
    rfl
  | negSucc m =>
    have hdig : ∀ x ∈ natToChars (m + 1), x.isDigit = true := natToChars_digits (m + 1)
    have htake : (natToChars (m + 1)).takeWhile Char.isDigit = natToChars (m + 1) :=
      List.takeWhile_eq_self_iff.mpr hdig
    simp only [intChars, jsParseFloatChars]
    rw [List.dropWhile_cons_of_neg (by decide)]
    simp only [if_pos rfl, htake]
    rw [if_neg (natToChars_ne_nil (m + 1))]
    rw [digitsToNat_natToChars]
    simp [Int.negSucc_eq]

/-! ### Round-trip lemmas for the textual representations -/

theorem joinSpaceChars_eq_intercalate (l : List (List Char)) :
    joinSpaceChars l = [' '].intercalate l := by
  induction l with
  | nil => simp [joinSpaceChars, List.intercalate]
  | cons x xs ih =>
    cases xs with
    | nil => simp [joinSpaceChars, List.intercalate]
    | cons y t =>
      rw [joinSpaceChars, ih]
      simp [List.intercalate, List.intersperse_cons_cons]

theorem mem_joinSpaceChars {c : Char} {l : List (List Char)} (h : c ∈ joinSpaceChars l) :
    c = ' ' ∨ ∃ t ∈ l, c ∈ t := by
  induction l with
  | nil => simp [joinSpaceChars] at h
  | cons x xs ih =>
    cases xs with
    | nil =>
      simp only [joinSpaceChars] at h
      exact Or.inr ⟨x, by simp, h⟩
    | cons y t =>
      rw [joinSpaceChars] at h
      rcases List.mem_append.mp h with h1 | h2
      · exact Or.inr ⟨x, by simp, h1⟩
      · rcases List.mem_cons.mp h2 with h3 | h4
        · exact Or.inl h3
        · rcases ih h4 with h5 | ⟨u, hu, hcu⟩
          · exact Or.inl h5
          · exact Or.inr ⟨u, by simp [List.mem_cons.mp hu], hcu⟩

theorem intChars_digit_or_minus (n : Int) : ∀ c ∈ intChars n, c.isDigit = true ∨ c = '-' := by
  cases n with
  | ofNat m => exact fun c hc => Or.inl (natToChars_digits m c hc)
  | negSucc m =>
    intro c hc
    rcases List.mem_cons.mp hc with h | h
    · exact Or.inr h
    · exact Or.inl (natToChars_digits (m + 1) c h)

theorem splitTokens_numListString (ns : List Int) :
    splitTokens (numListString ns) = ns.map intChars := by
  cases ns with
  | nil => rfl
  | cons a t =>
    have hx : ∀ l ∈ (a :: t).map intChars, ' ' ∉ l := by
      intro l hl
      rcases List.mem_map.mp hl with ⟨n, _, rfl⟩
      intro hc
      exact intChars_no_space n ' ' hc rfl
    have hsplit := List.splitOn_intercalate ((a :: t).map intChars) ' ' hx (by simp)
    show ((joinSpaceChars ((a :: t).map intChars)).splitOn ' ').filter _ = _
    rw [joinSpaceChars_eq_intercalate, hsplit]
    apply List.filter_eq_self.mpr
    intro x hx2
    rcases List.mem_map.mp hx2 with ⟨n, _, rfl⟩
    simpa using intChars_ne_nil n

theorem numListString_ne_null (ns : List Int) : numListString ns ≠ "null" := by
  intro h
  have hn : ('n' : Char) ∈ (numListString ns).data := by rw [h]; decide
  have hn2 : ('n' : Char) ∈ joinSpaceChars (ns.map intChars) := hn
  rcases mem_joinSpaceChars hn2 with h1 | ⟨t, ht, hct⟩
  · exact absurd h1 (by decide)
  · rcases List.mem_map.mp ht with ⟨m, _, rfl⟩
    rcases intChars_digit_or_minus m 'n' hct with h2 | h2
    · simp [Char.isDigit] at h2
    · exact absurd h2 (by decide)

theorem tokNum_map_intChars (ns : List Int) (i : Nat) (n : Int) (h : ns[i]? = some n) :
    tokNum (ns.map intChars) i = n := by
  simp [tokNum, List.get?_eq_getElem?, List.getElem?_map, h, jsParseFloatChars_intChars]

theorem convertToStringList_map_num (ns : List Int) :
    convertToStringList (ns.map JSVal.num) = ns.map numToString := by
  induction ns with
  | nil => rfl
  | cons a t ih => simp [convertToStringList, ih, convertToString]

theorem convertToString_arr_num (ns : List Int) :
    convertToString (.arr (ns.map JSVal.num)) = numListString ns := by
  rw [convertToString, convertToStringList_map_num, List.map_map]
  have h : String.data ∘ numToString = intChars := funext fun n => rfl
  rw [h]
  rfl

theorem hexVal_hexDigitChar {d : Nat} (h : d < 16) : hexVal (hexDigitChar d) = some d := by
  interval_cases d <;> decide

theorem hexByte_byteHexChars (n : Fin 256) :
    hexByte (hexDigitChar (n.val / 16)) (hexDigitChar (n.val % 16)) = some n := by
  have hlt : n.val < 256 := n.isLt
  have h1 : n.val / 16 < 16 := Nat.div_lt_of_lt_mul (by omega)
  have h2 : n.val % 16 < 16 := Nat.mod_lt _ (by omega)
  have hsum : 16 * (n.val / 16) + n.val % 16 = n.val := Nat.div_add_mod n.val 16
  rw [hexByte, hexVal_hexDigitChar h1, hexVal_hexDigitChar h2]
  have hlt2 : 16 * (n.val / 16) + n.val % 16 < 256 := by rw [hsum]; exact hlt
  simp only [dif_pos hlt2]
  congr 1
  exact Fin.ext hsum

theorem parseCssColor_hexEncode (c : RGB) : parseCssColor (hexEncode c) = some c := by
  have hr := hexByte_byteHexChars c.r
  have hg := hexByte_byteHexChars c.g
  have hb := hexByte_byteHexChars c.b
  simp only [hexEncode, byteHexChars, List.cons_append, List.nil_append, parseCssColor]
  rw [hr, hg, hb]

theorem goPointParse_numListString (x y : Int) :
    goPointParse (numListString [x, y]) = .point x y := by
  rw [goPointParse, splitTokens_numListString]
  rw [tokNum_map_intChars [x, y] 0 x (by rfl), tokNum_map_intChars [x, y] 1 y (by rfl)]

theorem goSizeParse_numListString (w h : Int) :
    goSizeParse (numListString [w, h]) = .size w h := by
  rw [goSizeParse, splitTokens_numListString]
  rw [tokNum_map_intChars [w, h] 0 w (by rfl), tokNum_map_intChars [w, h] 1 h (by rfl)]

theorem goRectParse_numListString (x y w h : Int) :
    goRectParse (numListString [x, y, w, h]) = .rect x y w h := by
  rw [goRectParse, splitTokens_numListString]
  rw [tokNum_map_intChars [x, y, w, h] 0 x (by rfl), tokNum_map_intChars [x, y, w, h] 1 y (by rfl),
    tokNum_map_intChars [x, y, w, h] 2 w (by rfl), tokNum_map_intChars [x, y, w, h] 3 h (by rfl)]

theorem goSpotParse_numListString (x y ox oy : Int) :
    goSpotParse (numListString [x, y, ox, oy]) = .spot x y ox oy := by
  rw [goSpotParse, splitTokens_numListString]
  rw [tokNum_map_intChars [x, y, ox, oy] 0 x (by rfl),
    tokNum_map_intChars [x, y, ox, oy] 1 y (by rfl),
    tokNum_map_intChars [x, y, ox, oy] 2 ox (by rfl),
    tokNum_map_intChars [x, y, ox, oy] 3 oy (by rfl)]

theorem goMarginParse_numListString (t r b l : Int) :
    goMarginParse (numListString [t, r, b, l]) = .margin t r b l := by
  rw [goMarginParse, splitTokens_numListString]
  simp only [List.map_cons, List.map_nil]
  rw [show [intChars t, intChars r, intChars b, intChars l] =
    List.map intChars [t, r, b, l] from rfl]
  rw [tokNum_map_intChars [t, r, b, l] 0 t (by rfl),
    tokNum_map_intChars [t, r, b, l] 1 r (by rfl),
    tokNum_map_intChars [t, r, b, l] 2 b (by rfl),
    tokNum_map_intChars [t, r, b, l] 3 l (by rfl)]

theorem convertToArrayOfNumber_roundtrip (ns : List Int) :
    convertToArrayOfNumber (numListString ns) = .arr (ns.map JSVal.num) := by
  rw [convertToArrayOfNumber, if_neg (numListString_ne_null ns), splitTokens_numListString,
    List.map_map]
  congr 1
  apply List.map_congr_left
  intro n _
  simp [Function.comp, jsParseFloatChars_intChars]

theorem commitLoop_commitBody (decl : List (String × PropertyDesc)) (hasPM : Bool)
    (obj : InspObj) (rows : List (String × InputElem)) :
    ∀ data, CommitBody decl hasPM obj rows data (commitLoop decl hasPM obj rows data).2.2 := by
  induction rows with
  | nil => intro data; exact CommitBody.nil data
  | cons p rest ih =>
    intro data
    obtain ⟨name, inp⟩ := p
    by_cases hedit : canEditProperty name (List.lookup name decl) (setObjData obj data) = true
    · simp only [commitLoop, hedit, if_true]
      exact CommitBody.editable _ hedit rfl (ih _)
    · rw [Bool.not_eq_true] at hedit
      simp only [commitLoop, hedit, Bool.false_eq_true, if_false]
      exact CommitBody.readonly hedit (ih _)

theorem commitLoop_no_tx (decl : List (String × PropertyDesc)) (hasPM : Bool)
    (obj : InspObj) (rows : List (String × InputElem)) :
    ∀ data e, e ∈ (commitLoop decl hasPM obj rows data).2.2 →
      isStartTxEvent e = false ∧ isCommitTxEvent e = false := by
  induction rows with
  | nil => intro data e he; simp [commitLoop] at he
  | cons p rest ih =>
    intro data e he
    obtain ⟨name, inp⟩ := p
    by_cases hedit : canEditProperty name (List.lookup name decl) (setObjData obj data) = true
    · simp only [commitLoop, hedit, if_true] at he
      rcases List.mem_append.mp he with h1 | h2
      · rcases List.mem_cons.mp h1 with h3 | h4
        · subst h3; exact ⟨rfl, rfl⟩
        · by_cases hpm : hasPM
          · simp only [hpm, if_true, List.mem_singleton] at h4
            subst h4; exact ⟨rfl, rfl⟩
          · simp [hpm] at h4
      · exact ih _ e h2
    · rw [Bool.not_eq_true] at hedit
      simp only [commitLoop, hedit, Bool.false_eq_true, if_false] at he
      exact ih _ e he

/-- An identically-named family of rows whose property the editability
check always rejects contributes no write and no callback call. -/
theorem commitLoop_skips_uneditable (decl : List (String × PropertyDesc)) (hasPM : Bool)
    (obj : InspObj) (rows : List (String × InputElem)) (target : String)
    (hne : ∀ d, canEditProperty target (List.lookup target decl) (setObjData obj d) = false) :
    ∀ data v, ModelEvent.setProp target v ∉ (commitLoop decl hasPM obj rows data).2.2 ∧
      ModelEvent.modified target v ∉ (commitLoop decl hasPM obj rows data).2.2 := by
  induction rows with
  | nil => intro data v; simp [commitLoop]
  | cons p rest ih =>
    intro data v
    obtain ⟨name, inp⟩ := p
    by_cases hedit : canEditProperty name (List.lookup name decl) (setObjData obj data) = true
    · have hname : name ≠ target := by
        intro h
        subst h
        rw [hne data] at hedit
        exact absurd hedit (by simp)
      simp only [commitLoop, hedit, if_true]
      constructor
      · intro hmem
        rcases List.mem_append.mp hmem with h1 | h2
        · rcases List.mem_cons.mp h1 with h3 | h4
          · exact hname (by injection h3 with h5 _; exact h5.symm)
          · by_cases hpm : hasPM
            · simp [hpm] at h4
            · simp [hpm] at h4
        · exact (ih _ v).1 h2
      · intro hmem
        rcases List.mem_append.mp hmem with h1 | h2
        · rcases List.mem_cons.mp h1 with h3 | h4
          · exact absurd h3 (by simp)
          · by_cases hpm : hasPM
            · simp only [hpm, if_true, List.mem_singleton] at h4
              exact hname (by injection h4 with h5 _; exact h5.symm)
            · simp [hpm] at h4
        · exact (ih _ v).2 h2
    · rw [Bool.not_eq_true] at hedit
      simp only [commitLoop, hedit, Bool.false_eq_true, if_false]
      exact ih data v

/-- A commit log contains exactly one transaction start and one
transaction commit: the loop body emits only writes and callback calls. -/
theorem commitLoop_countP_one (decl : List (String × PropertyDesc)) (hasPM : Bool)
    (obj : InspObj) (rows : List (String × InputElem)) (data : JSRecord) (lbl : String) :
    (ModelEvent.startTx lbl :: (commitLoop decl hasPM obj rows data).2.2
        ++ [ModelEvent.commitTx lbl]).countP isStartTxEvent = 1 ∧
    (ModelEvent.startTx lbl :: (commitLoop decl hasPM obj rows data).2.2
        ++ [ModelEvent.commitTx lbl]).countP isCommitTxEvent = 1 := by
  have hbody : ∀ e ∈ (commitLoop decl hasPM obj rows data).2.2,
      isStartTxEvent e = false ∧ isCommitTxEvent e = false :=
    fun e he => commitLoop_no_tx decl hasPM obj rows data e he
  constructor
  · have hz : (commitLoop decl hasPM obj rows data).2.2.countP isStartTxEvent = 0 :=
      List.countP_eq_zero.mpr (fun e he => by simp [(hbody e he).1])
    simp [List.countP_cons, List.countP_append, hz, isStartTxEvent]
  · have hz : (commitLoop decl hasPM obj rows data).2.2.countP isCommitTxEvent = 0 :=
      List.countP_eq_zero.mpr (fun e he => by simp [(hbody e he).2])
    simp [List.countP_cons, List.countP_append, hz, isCommitTxEvent]

/-! ## Row construction lemmas -/

theorem lookup_cons_self {β : Type} (a : String) (b : β) (l : List (String × β)) :
    List.lookup a ((a, b) :: l) = some b := by
  simp [List.lookup]

theorem lookup_cons_ne {β : Type} (a k : String) (b : β) (l : List (String × β))
    (h : k ≠ a) : List.lookup a ((k, b) :: l) = List.lookup a l := by
  simp only [List.lookup]
  rw [show (a == k) = false from beq_eq_false_iff_ne.mpr (fun he => h he.symm)]

theorem lookup_of_mem_nodup {β : Type} {l : List (String × β)} {k : String} {d : β}
    (hmem : (k, d) ∈ l) (hnd : (l.map Prod.fst).Nodup) : List.lookup k l = some d := by
  induction l with
  | nil => simp at hmem
  | cons p t ih =>
    obtain ⟨k', d'⟩ := p
    rcases List.mem_cons.mp hmem with h1 | h2
    · obtain ⟨hk, hd⟩ := Prod.mk.injEq .. ▸ h1
      subst hk
      subst hd
      exact lookup_cons_self k d t
    · have hk : k ≠ k' := by
        intro he
        subst he
        have : k ∈ t.map Prod.fst := List.mem_map.mpr ⟨(k, d), h2, rfl⟩
        simp only [List.map_cons, List.nodup_cons] at hnd
        exact hnd.1 this
      rw [lookup_cons_ne k k' d' t (Ne.symm hk)]
      exact ih h2 (by simp only [List.map_cons, List.nodup_cons] at hnd; exact hnd.2)

theorem applyTypeAttr_color : applyTypeAttr "color" = "color" := by decide

theorem applyTypeAttr_undefined : applyTypeAttr "undefined" = "text" := by decide

theorem applyTypeAttr_ne_color {t : String} (h : t ≠ "color") : applyTypeAttr t ≠ "color" := by
  unfold applyTypeAttr
  split
  · exact h
  · decide

/-- The disabled state of a generated input: read-only per
`canEditProperty`, or force-disabled by a globally read-only model. -/
theorem buildPropertyRow_disabled (decl : List (String × PropertyDesc)) (ro : Bool)
    (obj : InspObj) (tab : Nat) (name : String) (v : JSVal) :
    (buildPropertyRow decl ro obj tab name v).disabled =
      (ro || !canEditProperty name (List.lookup name decl) obj) := by
  unfold buildPropertyRow
  cases hD : List.lookup name decl with
  | none =>
    cases ro <;> simp
  | some d =>
    cases hT : d.type with
    | none =>
      cases ro <;> simp [hT, applyTypeAttr_undefined]
    | some t =>
      by_cases hc : t = "color"
      · subst hc
        cases ro <;> simp [hT, applyTypeAttr_color]
      · have happ : applyTypeAttr t ≠ "color" := applyTypeAttr_ne_color hc
        by_cases h9 : t ≠ "string" ∧ t ≠ "number" ∧ t ≠ "boolean" ∧ t ≠ "arrayofnumber" ∧
            t ≠ "point" ∧ t ≠ "size" ∧ t ≠ "rect" ∧ t ≠ "spot" ∧ t ≠ "margin"
        · cases ro <;> simp [hT, h9, hc, happ]
        · cases ro <;> simp [hT, h9, hc]

/-- The event wiring of a generated input: colour-typed rows commit on
`input` and `change`, every other row commits on `blur` (each listener
invokes `updateAllProperties`). -/
theorem buildPropertyRow_listeners (decl : List (String × PropertyDesc)) (ro : Bool)
    (obj : InspObj) (tab : Nat) (name : String) (v : JSVal) :
    (buildPropertyRow decl ro obj tab name v).listeners =
      if (List.lookup name decl).bind PropertyDesc.type = some "color" then
        ["input", "change"]
      else ["blur"] := by
  unfold buildPropertyRow
  cases hD : List.lookup name decl with
  | none =>
    cases ro <;> simp
  | some d =>
    cases hT : d.type with
    | none =>
      cases ro <;> simp [hT, applyTypeAttr_undefined]
    | some t =>
      by_cases hc : t = "color"
      · subst hc
        cases ro <;> simp [hT, applyTypeAttr_color]
      · have happ : applyTypeAttr t ≠ "color" := applyTypeAttr_ne_color hc
        by_cases h9 : t ≠ "string" ∧ t ≠ "number" ∧ t ≠ "boolean" ∧ t ≠ "arrayofnumber" ∧
            t ≠ "point" ∧ t ≠ "size" ∧ t ≠ "rect" ∧ t ≠ "spot" ∧ t ≠ "margin"
        · cases ro <;> simp [hT, h9, hc, happ]
        · cases ro <;> simp [hT, h9, hc]

theorem buildLoop1_names (decl : List (String × PropertyDesc)) (ro : Bool) (obj : InspObj)
    (data : JSRecord) (l : List (String × PropertyDesc)) :
    ∀ acc, (buildLoop1 decl ro obj data l acc).map Prod.fst =
      acc.map Prod.fst ++ (l.filter (fun p => canShowProperty p.1 p.2 obj)).map Prod.fst := by
  induction l with
  | nil => intro acc; simp [buildLoop1]
  | cons p rest ih =>
    intro acc
    obtain ⟨k, d⟩ := p
    by_cases hs : canShowProperty k d obj = true
    · simp only [buildLoop1, hs, if_true]
      rw [ih]
      simp [List.filter_cons, hs]
    · rw [Bool.not_eq_true] at hs
      simp only [buildLoop1, hs, Bool.false_eq_true, if_false]
      rw [ih]
      simp [List.filter_cons, hs]

theorem contains_append_singleton {x k : String} (l : List String) (h : x ≠ k) :
    (l ++ [k]).contains x = l.contains x := by
  by_cases hx : x ∈ l
  · have h1 : l.contains x = true := List.elem_iff.mpr hx
    have h2 : (l ++ [k]).contains x = true :=
      List.elem_iff.mpr (List.mem_append.mpr (Or.inl hx))
    rw [h1, h2]
  · have h1 : ¬(l.contains x = true) := fun hc => hx (List.elem_iff.mp hc)
    have h2 : ¬((l ++ [k]).contains x = true) := by
      intro hc
      rcases List.mem_append.mp (List.elem_iff.mp hc) with hm | hm
      · exact hx hm
      · exact h (List.mem_singleton.mp hm)
    rw [Bool.not_eq_true] at h1 h2
    rw [h1, h2]

theorem buildLoop2_names (decl : List (String × PropertyDesc)) (ro : Bool) (obj : InspObj)
    (data : JSRecord) (ks : List String) :
    ∀ acc, ks.Nodup →
      (buildLoop2 decl ro obj data ks acc).map Prod.fst =
        acc.map Prod.fst ++ ks.filter (ownKeyKept decl obj (acc.map Prod.fst)) := by
  induction ks with
  | nil => intro acc _; simp [buildLoop2]
  | cons k rest ih =>
    intro acc hnd
    have hndr : rest.Nodup := (List.nodup_cons.mp hnd).2
    have hkr : k ∉ rest := (List.nodup_cons.mp hnd).1
    by_cases h1 : k = "__gohashid"
    · rw [buildLoop2, if_pos h1, ih acc hndr]
      have hk0 : ownKeyKept decl obj (acc.map Prod.fst) k = false := by
        simp [ownKeyKept, h1]
      simp [List.filter_cons, hk0]
    · by_cases h2 : (acc.map Prod.fst).contains k = true
      · rw [buildLoop2, if_neg h1, if_pos h2, ih acc hndr]
        have hk0 : ownKeyKept decl obj (acc.map Prod.fst) k = false := by
          simp only [ownKeyKept, h2, Bool.not_true, Bool.and_false, Bool.false_and]
        simp [List.filter_cons, hk0]
      · by_cases h3 : declaredHidden decl obj k = true
        · rw [buildLoop2, if_neg h1, if_neg h2, if_pos h3, ih acc hndr]
          have hk0 : ownKeyKept decl obj (acc.map Prod.fst) k = false := by
            simp [ownKeyKept, h3]
          simp [List.filter_cons, hk0]
        · rw [buildLoop2, if_neg h1, if_neg h2, if_neg h3, ih _ hndr]
          rw [Bool.not_eq_true] at h2 h3
          have hbeq : (k == "__gohashid") = false := beq_eq_false_iff_ne.mpr h1
          have hkept : ownKeyKept decl obj (acc.map Prod.fst) k = true := by
            simp only [ownKeyKept, hbeq, h2, h3, Bool.not_false, Bool.and_true, Bool.true_and]
          have hcongr : rest.filter (ownKeyKept decl obj
              ((acc ++ [(k, buildPropertyRow decl ro obj acc.length k (getProp data k))]).map
                Prod.fst)) = rest.filter (ownKeyKept decl obj (acc.map Prod.fst)) := by
            apply List.filter_congr
            intro x hx
            have hxk : x ≠ k := fun he => hkr (he ▸ hx)
            simp only [ownKeyKept, List.map_append, List.map_cons, List.map_nil]
            rw [contains_append_singleton _ hxk]
          rw [hcongr]
          simp [List.filter_cons, hkept]

theorem buildRows_names (decl : List (String × PropertyDesc)) (includesOwn : Bool) (ro : Bool)
    (obj : InspObj) (data : JSRecord) (hdata : (ownKeys data).Nodup) :
    (buildRows decl includesOwn ro obj data).map Prod.fst =
      visibleDeclaredNames decl obj ++
        (if includesOwn then
          (ownKeys data).filter (ownKeyKept decl obj (visibleDeclaredNames decl obj))
        else []) := by
  unfold buildRows
  have h1 : (buildLoop1 decl ro obj data decl []).map Prod.fst =
      visibleDeclaredNames decl obj := by
    rw [buildLoop1_names]
    simp [visibleDeclaredNames]
  by_cases hio : includesOwn
  · simp only [hio, if_true]
    rw [buildLoop2_names decl ro obj data (ownKeys data) _ hdata, h1]
  · simp only [hio, Bool.false_eq_true, if_false]
    simpa using h1

/-- A `readOnly` predicate that holds for every object makes the property
uneditable whatever the current object state is. -/
theorem canEditProperty_false_of_pred {decl : List (String × PropertyDesc)} {name : String}
    {d : PropertyDesc} {f : InspObj → String → Bool}
    (hlk : List.lookup name decl = some d) (hro : d.readOnly = ReadOnlyOpt.pred f)
    (hf : ∀ o, f o name = true) (o : InspObj) :
    canEditProperty name (List.lookup name decl) o = false := by
  by_cases hfn : isFuncVal (getProp ((objData? o).getD []) name) = true
  · simp [canEditProperty, hlk, hfn]
  · rw [Bool.not_eq_true] at hfn
    simp [canEditProperty, hlk, hfn, hro, hf o]

/-- Two input elements agree on everything but the displayed text after a
refresh. -/
theorem sameExceptValue_refreshInput (dOpt : Option JSRecord) (n : String) (i : InputElem) :
    sameExceptValue i (refreshInput dOpt n i) := by
  cases dOpt <;> exact ⟨rfl, rfl, rfl, rfl⟩

/-! ## The claims -/

/-- Claim C4: a value committed with boolean type parses to `false`
exactly when the input value is the boolean `false`, the string
`"false"`, or the string `"0"`; every other value — any other string
included — parses to `true`. -/
theorem claim_C4_boolean_parsing :
    ∀ v : JSVal, parseBooleanJS v = false ↔
      (v = JSVal.bool false ∨ v = JSVal.str "false" ∨ v = JSVal.str "0") := by
  intro v
  cases v with
  | bool b => cases b <;> simp [parseBooleanJS]
  | str s =>
    by_cases h1 : s = "false"
    · subst h1; simp [parseBooleanJS]
    · by_cases h2 : s = "0"
      · subst h2; simp [parseBooleanJS]
      · simp [parseBooleanJS, h1, h2]
  | _ => simp [parseBooleanJS]

/-- Claim C5: for every supported type tag, converting a value of that
type to its text form with `convertToString` (with `convertToColor` for
colours) and parsing the text back through the commit path's
type-specific parser (`commitConvert`) returns the original value
(numbers are embedded as exact integers; colours as six-digit hex). -/
theorem claim_C5_roundtrip :
    (∀ n : Int, commitConvert "number" (convertToString (.num n)) = .num n) ∧
    (∀ b : Bool, commitConvert "boolean" (convertToString (.bool b)) = .bool b) ∧
    (∀ ns : List Int,
      commitConvert "arrayofnumber" (convertToString (.arr (ns.map JSVal.num))) =
        .arr (ns.map JSVal.num)) ∧
    (commitConvert "arrayofnumber" (convertToString .null) = .null) ∧
    (∀ x y : Int, commitConvert "point" (convertToString (.point x y)) = .point x y) ∧
    (∀ w h : Int, commitConvert "size" (convertToString (.size w h)) = .size w h) ∧
    (∀ x y w h : Int,
      commitConvert "rect" (convertToString (.rect x y w h)) = .rect x y w h) ∧
    (∀ x y ox oy : Int,
      commitConvert "spot" (convertToString (.spot x y ox oy)) = .spot x y ox oy) ∧
    (∀ t r b l : Int,
      commitConvert "margin" (convertToString (.margin t r b l)) = .margin t r b l) ∧
    (∀ c : RGB,
      commitConvert "color" (convertToColor (.str (hexEncode c))) = .str (hexEncode c)) := by
  refine ⟨?_, ?_, ?_, ?_, ?_, ?_, ?_, ?_, ?_, ?_⟩
  · intro n
    have hp : jsParseFloat (convertToString (.num n)) = some n := jsParseFloatChars_intChars n
    rw [show commitConvert "number" (convertToString (.num n)) =
      (match jsParseFloat (convertToString (.num n)) with
       | some m => JSVal.num m
       | none => JSVal.nan) from rfl, hp]
  · intro b; cases b <;> rfl
  · intro ns
    rw [convertToString_arr_num]
    exact convertToArrayOfNumber_roundtrip ns
  · rfl
  · intro x y; exact goPointParse_numListString x y
  · intro w h; exact goSizeParse_numListString w h
  · intro x y w h; exact goRectParse_numListString x y w h
  · intro x y ox oy; exact goSpotParse_numListString x y ox oy
  · intro t r b l; exact goMarginParse_numListString t r b l
  · intro c
    have h1 : convertToColor (.str (hexEncode c)) = hexEncode c := by
      rw [show convertToColor (.str (hexEncode c)) =
        (match parseCssColor (hexEncode c) with
         | some c2 => hexEncode c2
         | none => "#000000") from rfl, parseCssColor_hexEncode]
    rw [h1]
    rfl

/-- Claim C8, counterexample: a response body that is not well-formed XML
makes `xml2js` report a parse error through the callback, yet the
response mapping of `getExecutionResults` completes normally and yields
`undefined` — the failure does not propagate as an exception or
rejection. -/
theorem claim_C8_counterexample :
    (xml2jsParseString "this is not xml").1.isSome = true ∧
    cswMapResponse "this is not xml" = none :=
  ⟨rfl, rfl⟩

/-- Claim C8, amended: the parse failure is silently swallowed — whenever
`xml2js` reports an error to the callback, `getExecutionResults` ignores
the error argument and its mapped result is `undefined`; no exception
escapes this code. -/
theorem claim_C8_amended :
    ∀ s : String, (xml2jsParseString s).1.isSome = true → cswMapResponse s = none := by
  intro s h
  by_cases ha : xml2jsAccepts s = true
  · rw [show xml2jsParseString s = (none, some ()) from by
      unfold xml2jsParseString; rw [if_pos ha]] at h
    simp at h
  · unfold cswMapResponse xml2jsParseString
    rw [if_neg ha]

/-- Claim C8, witness for the amended theorem. -/
theorem claim_C8_amended_witness : cswMapResponse "this is not xml" = none :=
  claim_C8_amended "this is not xml" rfl

/-- Claim C9: for every execution identifier, the request body contains
the identifier verbatim (no escaping, no validation) wrapped in percent
wildcards inside the `<ogc:Literal>` that directly follows the
`<ogc:PropertyName>dc:title</ogc:PropertyName>` element of the
`PropertyIsLike` filter; in particular, for the identifier `abc123` the
body contains the literal text `%abc123%`. -/
theorem claim_C9_request_literal :
    (∀ executionId : String,
      getExecutionResultsBody executionId =
        cswRequestOpen ++ "<ogc:Literal>%" ++ executionId ++ "%</ogc:Literal>"
          ++ cswRequestClose) ∧
    (∀ executionId : String,
      getExecutionResultsBody executionId =
        cswBeforePropertyName ++ "<ogc:PropertyName>dc:title</ogc:PropertyName>"
          ++ "\n                " ++ "<ogc:Literal>%" ++ executionId ++ "%</ogc:Literal>"
          ++ cswRequestClose) ∧
    getExecutionResultsBody "abc123" =
      cswRequestOpen ++ "<ogc:Literal>" ++ "%abc123%" ++ "</ogc:Literal>"
        ++ cswRequestClose := by
  have h1 : ∀ executionId : String,
      getExecutionResultsBody executionId =
        cswRequestOpen ++ "<ogc:Literal>%" ++ executionId ++ "%</ogc:Literal>"
          ++ cswRequestClose := by
    intro executionId
    unfold getExecutionResultsBody
    rw [String.append_assoc cswRequestOpen "<ogc:Literal>" "%"]
    rw [show ("<ogc:Literal>" : String) ++ "%" = "<ogc:Literal>%" from rfl]
    rw [String.append_assoc (cswRequestOpen ++ "<ogc:Literal>%" ++ executionId) "%"
      "</ogc:Literal>"]
    rw [show ("%" : String) ++ "</ogc:Literal>" = "%</ogc:Literal>" from rfl]
  refine ⟨h1, ?_, ?_⟩
  · intro executionId
    rw [h1 executionId]
    rfl
  · unfold getExecutionResultsBody
    rw [String.append_assoc (cswRequestOpen ++ "<ogc:Literal>") "%" "abc123"]
    rw [String.append_assoc (cswRequestOpen ++ "<ogc:Literal>") ("%" ++ "abc123") "%"]
    rw [show ("%" ++ "abc123" : String) ++ "%" = "%abc123%" from rfl]

/-- Claim C10: when the inspected object is null, or is a part whose data
record is missing, `updateAllProperties` returns before starting a
transaction — no event at all is emitted (no transaction, no write, no
callback) and the inspector state, hence the model and its undo history,
is left unchanged. -/
theorem claim_C10_commit_no_data (st : InspectorState)
    (h : st.inspectedObject.bind objData? = none) :
    updateAllProperties st = (st, []) := by
  cases hob : st.inspectedObject with
  | none => simp [updateAllProperties, hob]
  | some obj =>
    rw [hob] at h
    have hd : objData? obj = none := h
    simp [updateAllProperties, hob, hd]

/-- Claim C10, witness: a part with a null data record. -/
theorem claim_C10_commit_no_data_witness : updateAllProperties wStC10 = (wStC10, []) :=
  claim_C10_commit_no_data wStC10 rfl

/-- Claim C1: with an inspected data record present, a commit runs
exactly one `'set all properties'` transaction whose body, described by
`CommitBody`, writes each editable row's type-converted current value via
`setDataProperty` and invokes the `propertyModified` callback once per
written property (when configured), while read-only rows produce neither
a write nor a callback; and the commit is wired to fire on `blur`
(`input`/`change` for colour rows), each listener being
`updateAllProperties`. -/
theorem claim_C1_commit_transaction (st : InspectorState) (obj : InspObj) (data : JSRecord)
    (h1 : st.inspectedObject = some obj) (h2 : objData? obj = some data) :
    (updateAllProperties st).2 =
      ModelEvent.startTx "set all properties"
        :: (commitLoop st.declaredProperties st.hasPropertyModified obj st.rows data).2.2
        ++ [ModelEvent.commitTx "set all properties"] ∧
    CommitBody st.declaredProperties st.hasPropertyModified obj st.rows data
      (commitLoop st.declaredProperties st.hasPropertyModified obj st.rows data).2.2 ∧
    (updateAllProperties st).2.countP isStartTxEvent = 1 ∧
    (updateAllProperties st).2.countP isCommitTxEvent = 1 ∧
    (∀ tab name v,
      (buildPropertyRow st.declaredProperties st.modelIsReadOnly obj tab name v).listeners =
        if (List.lookup name st.declaredProperties).bind PropertyDesc.type = some "color" then
          ["input", "change"]
        else ["blur"]) := by
  have hlog : (updateAllProperties st).2 =
      ModelEvent.startTx "set all properties"
        :: (commitLoop st.declaredProperties st.hasPropertyModified obj st.rows data).2.2
        ++ [ModelEvent.commitTx "set all properties"] := by
    simp [updateAllProperties, h1, h2]
  refine ⟨hlog, commitLoop_commitBody _ _ _ _ _, ?_, ?_, ?_⟩
  · rw [hlog]
    exact (commitLoop_countP_one st.declaredProperties st.hasPropertyModified obj st.rows
      data "set all properties").1
  · rw [hlog]
    exact (commitLoop_countP_one st.declaredProperties st.hasPropertyModified obj st.rows
      data "set all properties").2
  · intro tab name v
    exact buildPropertyRow_listeners st.declaredProperties st.modelIsReadOnly obj tab name v

/-- Claim C1, witness: committing a boolean row and a flag-read-only row
with the callback configured emits exactly one transaction containing one
write and one callback call for the editable row and nothing for the
read-only one. -/
theorem claim_C1_commit_transaction_witness :
    (updateAllProperties wStC1).2 =
      [ModelEvent.startTx "set all properties",
       ModelEvent.setProp "flag" (JSVal.bool false),
       ModelEvent.modified "flag" (JSVal.bool false),
       ModelEvent.commitTx "set all properties"] :=
  ((claim_C1_commit_transaction wStC1 wObjC1
    [("flag", JSVal.bool true), ("locked", JSVal.str "s")] rfl rfl).1).trans (by rfl)

/-- Claim C6: a declared property whose `readOnly` predicate holds gets a
disabled input, and a commit neither writes it through `setDataProperty`
nor reports it to `propertyModified`. -/
theorem claim_C6_readonly_pred (decl : List (String × PropertyDesc)) (ro : Bool)
    (obj : InspObj) (tab : Nat) (name : String) (v : JSVal) (d : PropertyDesc)
    (f : InspObj → String → Bool) (st : InspectorState)
    (hlk : List.lookup name decl = some d)
    (hro : d.readOnly = ReadOnlyOpt.pred f)
    (hf : ∀ o, f o name = true)
    (hst : st.declaredProperties = decl) :
    (buildPropertyRow decl ro obj tab name v).disabled = true ∧
    ∀ val : JSVal, ModelEvent.setProp name val ∉ (updateAllProperties st).2 ∧
      ModelEvent.modified name val ∉ (updateAllProperties st).2 := by
  have hce : ∀ o', canEditProperty name (List.lookup name decl) o' = false :=
    canEditProperty_false_of_pred hlk hro hf
  constructor
  · rw [buildPropertyRow_disabled, hce obj]
    simp
  · intro val
    cases hob : st.inspectedObject with
    | none => simp [updateAllProperties, hob]
    | some obj' =>
      cases hd : objData? obj' with
      | none => simp [updateAllProperties, hob, hd]
      | some data' =>
        have hlog : (updateAllProperties st).2 =
            ModelEvent.startTx "set all properties"
              :: (commitLoop st.declaredProperties st.hasPropertyModified obj' st.rows
                data').2.2
              ++ [ModelEvent.commitTx "set all properties"] := by
          simp [updateAllProperties, hob, hd]
        have hskip := commitLoop_skips_uneditable st.declaredProperties
          st.hasPropertyModified obj' st.rows name
          (fun dta => by rw [hst]; exact hce (setObjData obj' dta)) data' val
        rw [hlog]
        constructor
        · intro hmem
          rcases List.mem_cons.mp hmem with h3 | h4
          · exact absurd h3 (by simp)
          · rcases List.mem_append.mp h4 with h5 | h6
            · exact hskip.1 h5
            · exact absurd (List.mem_singleton.mp h6) (by simp)
        · intro hmem
          rcases List.mem_cons.mp hmem with h3 | h4
          · exact absurd h3 (by simp)
          · rcases List.mem_append.mp h4 with h5 | h6
            · exact hskip.2 h5
            · exact absurd (List.mem_singleton.mp h6) (by simp)

/-- Claim C6, witness: a concrete constantly-true `readOnly` predicate. -/
theorem claim_C6_readonly_pred_witness :
    (buildPropertyRow wDeclC6 false wObjC6 0 "k" (JSVal.str "v")).disabled = true ∧
    ModelEvent.setProp "k" (JSVal.str "v2") ∉ (updateAllProperties wStC6).2 := by
  have h := claim_C6_readonly_pred wDeclC6 false wObjC6 0 "k" (JSVal.str "v")
    { readOnly := ReadOnlyOpt.pred wRoPred } wRoPred wStC6 rfl rfl (fun _ => rfl) rfl
  exact ⟨h.1, (h.2 (JSVal.str "v2")).1⟩

/-- Claim C7, counterexample: with the diagram's model globally
read-only, an otherwise editable property is still written by
`updateAllProperties` — it is not skipped during commit, contradicting
the claim that global model read-only is among the commit-skip
conditions. -/
theorem claim_C7_counterexample :
    cxStC7.modelIsReadOnly = true ∧
    (updateAllProperties cxStC7).2 =
      [ModelEvent.startTx "set all properties",
       ModelEvent.setProp "a" (JSVal.str "x"),
       ModelEvent.commitTx "set all properties"] :=
  ⟨rfl, rfl⟩

/-- Claim C7, amended: a property is skipped during commit exactly when
its stored value is a function, its `readOnly` flag is `true`, or its
`readOnly` predicate returns true (the `canEditProperty` conditions); a
globally read-only model disables every generated input but does not by
itself cause skipping — the commit events are independent of the
read-only flag. -/
theorem claim_C7_amended :
    (∀ name : String, ∀ desc : Option PropertyDesc, ∀ obj : InspObj,
      canEditProperty name desc obj = false ↔
        (isFuncVal (getProp ((objData? obj).getD []) name) = true ∨
         ∃ d, desc = some d ∧ (d.readOnly = ReadOnlyOpt.flag true ∨
           ∃ f, d.readOnly = ReadOnlyOpt.pred f ∧ f obj name = true))) ∧
    (∀ st : InspectorState, ∀ ro : Bool,
      (updateAllProperties { st with modelIsReadOnly := ro }).2 =
        (updateAllProperties st).2) ∧
    (∀ decl obj tab name v,
      (buildPropertyRow decl true obj tab name v).disabled = true) ∧
    (∀ decl (hasPM : Bool) obj rows (target : String),
      (∀ dta, canEditProperty target (List.lookup target decl) (setObjData obj dta) = false) →
      ∀ data v, ModelEvent.setProp target v ∉ (commitLoop decl hasPM obj rows data).2.2 ∧
        ModelEvent.modified target v ∉ (commitLoop decl hasPM obj rows data).2.2) := by
  refine ⟨?_, ?_, ?_, ?_⟩
  · intro name desc obj
    unfold canEditProperty
    by_cases hfn : isFuncVal (getProp ((objData? obj).getD []) name) = true
    · simp [hfn]
    · rw [Bool.not_eq_true] at hfn
      simp only [hfn, Bool.false_eq_true, if_false]
      cases desc with
      | none => simp
      | some d =>
        cases hro : d.readOnly with
        | missing => simp [hro]
        | flag b => cases b <;> simp [hro]
        | pred f =>
          by_cases hb : f obj name = true
          · simp [hro, hb]
          · rw [Bool.not_eq_true] at hb
            simp [hro, hb]
  · intro st ro
    cases hob : st.inspectedObject with
    | none => simp [updateAllProperties, hob]
    | some obj =>
      cases hd : objData? obj with
      | none => simp [updateAllProperties, hob, hd]
      | some data => simp [updateAllProperties, hob, hd]
  · intro decl obj tab name v
    rw [buildPropertyRow_disabled]
    simp
  · intro decl hasPM obj rows target hne data v
    exact commitLoop_skips_uneditable decl hasPM obj rows target hne data v

/-- Claim C7, witness for the amended theorem. -/
theorem claim_C7_amended_witness :
    (updateAllProperties { cxStC7 with modelIsReadOnly := true }).2 =
      (updateAllProperties cxStC7).2 ∧
    (buildPropertyRow wDeclC6 true wObjC6 0 "k" (JSVal.str "v")).disabled = true ∧
    ModelEvent.setProp "k" (JSVal.str "v2")
      ∉ (commitLoop wDeclC6 false wObjC6 wStC6.rows [("k", JSVal.str "v")]).2.2 := by
  refine ⟨claim_C7_amended.2.1 cxStC7 true, claim_C7_amended.2.2.1 wDeclC6 wObjC6 0 "k"
    (JSVal.str "v"), ?_⟩
  exact (claim_C7_amended.2.2.2 wDeclC6 false wObjC6 wStC6.rows "k"
    (fun dta => @canEditProperty_false_of_pred wDeclC6 "k"
      { readOnly := ReadOnlyOpt.pred wRoPred } wRoPred rfl rfl (fun _ => rfl)
      (setObjData wObjC6 dta)) [("k", JSVal.str "v")] (JSVal.str "v2")).1

/-- Claim C2, counterexample: a declared property with `show: false` that
is also an own enumerable key of the inspected data.  The spec's claimed
union contains it (as an own key), but the rebuild generates no row for
it, so the row set does not equal the claimed union. -/
theorem claim_C2_counterexample :
    (inspectObject cxStC2 none (some (some cxObjC2))).rows.map Prod.fst = [] ∧
    (inspectObject cxStC2 none (some (some cxObjC2))).domRows.map Prod.fst = [] ∧
    specRowNamesUnion cxDeclC2 true cxObjC2 cxDataC2 = ["a"] ∧
    (inspectObject cxStC2 none (some (some cxObjC2))).rows.map Prod.fst ≠
      specRowNamesUnion cxDeclC2 true cxObjC2 cxDataC2 :=
  ⟨rfl, rfl, rfl, by decide⟩

/-- The rebuild branch of `inspectObject`: with a different identity and
a present data record, the resulting rows are exactly `buildRows` of the
new object's record. -/
theorem inspectObject_rebuild_rows (st : InspectorState) (selection : Option InspObj)
    (arg : Option (Option InspObj)) (o : InspObj) (data : JSRecord)
    (hdiff : sameOrNull st (resolveTarget st selection arg) = false)
    (ho : resolveTarget st selection arg = some o)
    (hdata : objData? o = some data) :
    (inspectObject st selection arg).rows =
      buildRows st.declaredProperties st.includesOwnProperties st.modelIsReadOnly o data := by
  have hdiff2 : sameOrNull st (some o) = false := by
    rw [← ho]
    exact hdiff
  simp only [inspectObject, ho, hdiff2, Bool.false_eq_true, if_false, hdata]

/-- Core of the amended row-set characterisation, stated on `buildRows`. -/
theorem buildRows_amended_names (decl : List (String × PropertyDesc)) (includesOwn ro : Bool)
    (obj : InspObj) (data : JSRecord)
    (hdecl : (decl.map Prod.fst).Nodup) (hdata : (ownKeys data).Nodup) :
    (buildRows decl includesOwn ro obj data).map Prod.fst =
      visibleDeclaredNames decl obj ++
        (if includesOwn then
          (ownKeys data).filter (ownKeyKept decl obj (visibleDeclaredNames decl obj))
        else []) ∧
    ∀ k d, (k, d) ∈ decl → d.showOpt = ShowOpt.flag false →
      k ∉ (buildRows decl includesOwn ro obj data).map Prod.fst := by
  have h1 := buildRows_names decl includesOwn ro obj data hdata
  refine ⟨h1, ?_⟩
  intro k d hmem hflag
  have hlk : List.lookup k decl = some d := lookup_of_mem_nodup hmem hdecl
  have hcs : canShowProperty k d obj = false := by
    unfold canShowProperty
    rw [hflag]
  have hnotvis : k ∉ visibleDeclaredNames decl obj := by
    intro hk
    rcases List.mem_map.mp hk with ⟨p, hp, hpk⟩
    rcases List.mem_filter.mp hp with ⟨hpdecl, hpshow⟩
    obtain ⟨k2, d2⟩ := p
    have hk2 : k2 = k := hpk
    subst hk2
    have hlk2 : List.lookup k2 decl = some d2 := lookup_of_mem_nodup hpdecl hdecl
    rw [hlk] at hlk2
    have hd2 : d = d2 := by injection hlk2
    rw [← hd2] at hpshow
    rw [hcs] at hpshow
    exact absurd hpshow (by simp)
  rw [h1]
  intro hk
  rcases List.mem_append.mp hk with hvis | hown
  · exact hnotvis hvis
  · by_cases hio : includesOwn = true
    · rw [if_pos hio] at hown
      rcases List.mem_filter.mp hown with ⟨_, hkept⟩
      have hhid : declaredHidden decl obj k = true := by
        unfold declaredHidden
        rw [hlk]
        show (!canShowProperty k d obj) = true
        rw [hcs]
        rfl
      rw [ownKeyKept, hhid] at hkept
      simp at hkept
    · rw [Bool.not_eq_true] at hio
      rw [hio] at hown
      simp at hown

/-- Claim C2, amended: after every rebuild of the inspector's rows over a
present data record (the resolved object differing in identity from the
current one), the row names are the declared properties passing the
visibility check followed by, when `includesOwnProperties` is enabled,
the data object's own enumerable keys except `__gohashid`, except names
that already have a row, and except declared keys whose visibility check
fails; in particular, a declared property with `show: false` never
generates a row. -/
theorem claim_C2_amended (st : InspectorState) (selection : Option InspObj)
    (arg : Option (Option InspObj)) (o : InspObj) (data : JSRecord)
    (hdiff : sameOrNull st (resolveTarget st selection arg) = false)
    (ho : resolveTarget st selection arg = some o)
    (hdata : objData? o = some data)
    (hdecl : (st.declaredProperties.map Prod.fst).Nodup)
    (hnd : (ownKeys data).Nodup) :
    (inspectObject st selection arg).rows.map Prod.fst =
      visibleDeclaredNames st.declaredProperties o ++
        (if st.includesOwnProperties then
          (ownKeys data).filter
            (ownKeyKept st.declaredProperties o (visibleDeclaredNames st.declaredProperties o))
        else []) ∧
    ∀ k d, (k, d) ∈ st.declaredProperties → d.showOpt = ShowOpt.flag false →
      k ∉ (inspectObject st selection arg).rows.map Prod.fst := by
  rw [inspectObject_rebuild_rows st selection arg o data hdiff ho hdata]
  exact buildRows_amended_names st.declaredProperties st.includesOwnProperties
    st.modelIsReadOnly o data hdecl hnd

/-- Claim C2, witness for the amended theorem: the counterexample input
satisfies its hypotheses, and the hidden declared own key generates no
row in the rebuilt inspector. -/
theorem claim_C2_amended_witness :
    (inspectObject cxStC2 none (some (some cxObjC2))).rows.map Prod.fst =
      visibleDeclaredNames cxDeclC2 cxObjC2 ++
        (ownKeys cxDataC2).filter
          (ownKeyKept cxDeclC2 cxObjC2 (visibleDeclaredNames cxDeclC2 cxObjC2)) ∧
    "a" ∉ (inspectObject cxStC2 none (some (some cxObjC2))).rows.map Prod.fst := by
  have h := claim_C2_amended cxStC2 none (some (some cxObjC2)) cxObjC2 cxDataC2
    rfl rfl rfl (by decide) (by decide)
  exact ⟨h.1, h.2 "a" cxShowFalse (List.mem_singleton.mpr rfl) rfl⟩

/-- Claim C3: when the resolved object is null or has the same identity
as the current one, `inspectObject` keeps the row lists intact (same
names, inputs changed at most in their displayed value); when the
identity differs, the rows are rebuilt from scratch from the new object's
data record (independently of the previous rows), the visible list
becoming empty when that record is missing. -/
theorem claim_C3_rebuild_vs_refresh (st : InspectorState) (selection : Option InspObj)
    (arg : Option (Option InspObj)) :
    (sameOrNull st (resolveTarget st selection arg) = true →
      (inspectObject st selection arg).rows.map Prod.fst = st.rows.map Prod.fst ∧
      (inspectObject st selection arg).domRows.map Prod.fst = st.domRows.map Prod.fst ∧
      List.Forall₂ (fun p q : String × InputElem => p.1 = q.1 ∧ sameExceptValue p.2 q.2)
        st.rows (inspectObject st selection arg).rows ∧
      List.Forall₂ (fun p q : String × InputElem => p.1 = q.1 ∧ sameExceptValue p.2 q.2)
        st.domRows (inspectObject st selection arg).domRows) ∧
    (sameOrNull st (resolveTarget st selection arg) = false →
      ∀ o, resolveTarget st selection arg = some o →
        (∀ data, objData? o = some data →
          (inspectObject st selection arg).rows =
            buildRows st.declaredProperties st.includesOwnProperties st.modelIsReadOnly o
              data ∧
          (inspectObject st selection arg).domRows =
            buildRows st.declaredProperties st.includesOwnProperties st.modelIsReadOnly o
              data) ∧
        (objData? o = none → (inspectObject st selection arg).domRows = [])) := by
  constructor
  · intro hsame
    have hobj : inspectObject st selection arg =
        updateAllHTML { st with inspectedObject := resolveTarget st selection arg } := by
      simp only [inspectObject]
      rw [if_pos hsame]
    rw [hobj]
    unfold updateAllHTML
    refine ⟨by simp, by simp, ?_, ?_⟩
    · simp only []
      rw [List.forall₂_map_right_iff]
      refine List.forall₂_same.mpr ?_
      intro x _
      exact ⟨rfl, sameExceptValue_refreshInput _ x.1 x.2⟩
    · simp only []
      rw [List.forall₂_map_right_iff]
      refine List.forall₂_same.mpr ?_
      intro x _
      exact ⟨rfl, sameExceptValue_refreshInput _ x.1 x.2⟩
  · intro hdiff o ho
    have hdiff2 : sameOrNull st (some o) = false := by
      rw [← ho]
      exact hdiff
    constructor
    · intro data hdata
      have hobj : inspectObject st selection arg =
          { st with
            inspectedObject := resolveTarget st selection arg
            domRows := buildRows st.declaredProperties st.includesOwnProperties
              st.modelIsReadOnly o data
            rows := buildRows st.declaredProperties st.includesOwnProperties
              st.modelIsReadOnly o data
            tabIndex := (buildRows st.declaredProperties st.includesOwnProperties
              st.modelIsReadOnly o data).length } := by
        simp only [inspectObject, ho, hdiff2, Bool.false_eq_true, if_false, hdata]
      rw [hobj]
      exact ⟨rfl, rfl⟩
    · intro hdata
      have hobj : inspectObject st selection arg =
          { st with
            inspectedObject := resolveTarget st selection arg
            domRows := [] } := by
        simp only [inspectObject, ho, hdiff2, Bool.false_eq_true, if_false, hdata]
      rw [hobj]

/-- Claim C3, witness: re-inspecting the same identity keeps the row
names; switching to a new identity rebuilds from the new data record. -/
theorem claim_C3_rebuild_vs_refresh_witness :
    (inspectObject wStC3 none (some (some wObjC3a'))).rows.map Prod.fst =
      wStC3.rows.map Prod.fst ∧
    (inspectObject wStC3 none (some (some wObjC3b))).rows =
      buildRows wStC3.declaredProperties wStC3.includesOwnProperties wStC3.modelIsReadOnly
        wObjC3b [("y", JSVal.str "v")] := by
  refine ⟨((claim_C3_rebuild_vs_refresh wStC3 none (some (some wObjC3a'))).1 rfl).1, ?_⟩
  exact (((claim_C3_rebuild_vs_refresh wStC3 none (some (some wObjC3b))).2 rfl wObjC3b
    rfl).1 [("y", JSVal.str "v")] rfl).1

end LycheeCli
